import Mathlib

/-!
Verification development for the claude-discord-bridge program (`bridge.py`).

The Python source is shallowly embedded: strings are `String` or `List Char`
(Python `len` counts characters, as does `List.length` on `.data`), Python
`str | None` values are `Option String`, subprocess results are explicit
records, the line-oriented read loop of `_run_claude` is a fold over a script
of pre-parsed output events, and the global mutable state
(`session_id`, `_explicit_session`, plus the persisted session file) is an
explicit `BridgeState` threaded through the functions that mutate it.
Python exceptions that escape a function are modelled with `Except String`.
-/

namespace ClaudeBridge

/-! ## Constants from bridge.py -/

/-- Constant `MAX_MSG_LEN = 2000` (bridge.py line 87): the Discord per-message size limit. -/
def MAX_MSG_LEN : Nat := 2000

/-- Constant `MAX_RESPONSE_SIZE = 50_000` (bridge.py line 33). -/
def MAX_RESPONSE_SIZE : Nat := 50000

/-- Constant `MAX_COLDSTART_LEN = 4000` (bridge.py line 39). -/
def MAX_COLDSTART_LEN : Nat := 4000

/-- Sentinel `COLDSTART_BEGIN` (bridge.py line 37). -/
def COLDSTART_BEGIN : String := "---COLDSTART-BEGIN---"

/-- Sentinel `COLDSTART_END` (bridge.py line 38). -/
def COLDSTART_END : String := "---COLDSTART-END---"

/-- The backtick character, written without a literal backtick. -/
def tick : Char := Char.ofNat 96

/-! ## Output Chunker (`send_long`, bridge.py lines 260-276) -/

/-- Index of the last occurrence of `c` in `l`, if any (0-based). -/
def lastIdxOf (c : Char) : List Char → Option Nat
  | [] => none
  | a :: rest =>
    match lastIdxOf c rest with
    | some k => some (k + 1)
    | none => if a = c then some 0 else none

/-- Python `l.rfind(c, 0, e)` for a single character `c`: rightmost index of
`c` in the slice `l[0:e]`, or `-1` when absent. -/
def pyRfind (c : Char) (l : List Char) (e : Nat) : Int :=
  match lastIdxOf c (l.take e) with
  | some k => (k : Int)
  | none => -1

/-- The cut position chosen by `send_long` for an oversized text
(bridge.py lines 265-269): last newline in the first 2000 characters if its
index is positive, else last space, else a hard cut at 2000.  Mirrors the
Python `if cut <= 0` chain (an occurrence at index 0 is rejected, like `-1`). -/
def chooseCut (l : List Char) : Nat :=
  let cut1 : Int := pyRfind '\n' l MAX_MSG_LEN
  let cut2 : Int := if cut1 ≤ 0 then pyRfind ' ' l MAX_MSG_LEN else cut1
  let cut3 : Int := if cut2 ≤ 0 then (MAX_MSG_LEN : Int) else cut2
  cut3.toNat

/-- Python `s.count("```")`: number of non-overlapping occurrences of the
three-character fence marker, scanning left to right (bridge.py line 273). -/
def countFence : List Char → Nat
  | a :: b :: c :: rest =>
    if [a, b, c] = "```".data then countFence rest + 1
    else countFence (b :: c :: rest)
  | _ => 0

/-- The chunk sequence emitted by `send_long` (bridge.py lines 260-276),
with `fuel` bounding the number of loop iterations (the Python loop is not
structurally decreasing: the fence repair can re-grow the text).  `none`
means the fuel ran out before the loop finished.  Each element of the result
is one `channel.send` payload, in order. -/
def sendLong : Nat → List Char → Option (List (List Char))
  | fuel, s =>
    if s = [] then some []
    else if s.length ≤ MAX_MSG_LEN then some [s]
    else
      match fuel with
      | 0 => none
      | f + 1 =>
        let cut := chooseCut s
        let chunk := s.take cut
        let rest := (s.drop cut).dropWhile (· == '\n')
        if countFence chunk % 2 = 1 then
          (sendLong f ("```\n".data ++ rest)).map (fun cs => (chunk ++ "\n```".data) :: cs)
        else
          (sendLong f rest).map (fun cs => chunk :: cs)

/-! ## Process Runner (`_run_claude`, bridge.py lines 126-180)

Each stdout line of the subprocess is modelled already decoded: `_run_claude`
strips the raw bytes, skips blank lines (`blank`), hands the rest to
`json.loads` — failures are logged and ignored (`nonJson`) — and dispatches on
the `type` field (`assistant` with its content blocks, or `result` with its
result string).  `eof` is an empty `readline` result, `timeout` a
`readline` that exceeds `CLAUDE_TIMEOUT`.  The exit code and the stderr bytes
of the process are given as parameters of the run. -/

/-- A content block of an `assistant` event: a `text` block or any other kind
(skipped by the loop). -/
inductive OutBlock where
  | text (s : String)
  | other
deriving DecidableEq

/-- One iteration of subprocess stdout, pre-decoded (see above). -/
inductive OutEvent where
  | timeout
  | eof
  | blank
  | nonJson
  | assistant (blocks : List OutBlock)
  | result (s : String)
deriving DecidableEq

/-- The texts of the `text` blocks of an assistant event, in order
(bridge.py lines 154-157). -/
def blockTexts (bs : List OutBlock) : List String :=
  bs.filterMap fun b => match b with | .text s => some s | .other => none

/-- Result of one `_run_claude` invocation: collected fragments, exit code,
(truncated) stderr, and whether the subprocess was forcibly killed and
reaped by `_kill_proc`. -/
structure RunRes where
  parts : List String
  code : Int
  err : String
  killed : Bool
deriving DecidableEq

/-- Truncation of the `stderr` tail to 500 characters (bridge.py line 180). -/
def truncStderr (e : String) : String := String.mk (e.data.take 500)

/-- Sentinel fragment returned when a timeout hits before any output
(bridge.py line 171). -/
def timeoutSentinel : String := "(子进程读取超时)"

/-- Truncation notice appended when the size cap is exceeded
(bridge.py line 166). -/
def truncNotice : String := "\n...(响应过长，已截断)"

/-- The read loop of `_run_claude` (bridge.py lines 141-180) as a fold over
the event script, carrying the accumulated `parts` and `total_size`.
The cap check `total_size > MAX_RESPONSE_SIZE` runs after every processed
line except blank ones (those `continue` before the check).  An exhausted
script behaves like `eof` (the subprocess closed stdout). -/
def stepRun : List String → Nat → List OutEvent → Int → String → RunRes
  | parts, _, [], ec, err => ⟨parts, ec, truncStderr err, false⟩
  | parts, _, OutEvent.eof :: _, ec, err => ⟨parts, ec, truncStderr err, false⟩
  | parts, _, OutEvent.timeout :: _, _, _ =>
    ⟨if parts = [] then [timeoutSentinel] else parts, 1, "timeout", true⟩
  | parts, total, OutEvent.blank :: rest, ec, err => stepRun parts total rest ec err
  | parts, total, OutEvent.nonJson :: rest, ec, err =>
    if MAX_RESPONSE_SIZE < total then ⟨parts ++ [truncNotice], ec, truncStderr err, false⟩
    else stepRun parts total rest ec err
  | parts, total, OutEvent.assistant bs :: rest, ec, err =>
    let ts := blockTexts bs
    let parts2 := parts ++ ts
    let total2 := total + (ts.map String.length).sum
    if MAX_RESPONSE_SIZE < total2 then ⟨parts2 ++ [truncNotice], ec, truncStderr err, false⟩
    else stepRun parts2 total2 rest ec err
  | parts, total, OutEvent.result s :: rest, ec, err =>
    let parts2 := if s ≠ "" ∧ parts = [] then parts ++ [s] else parts
    let total2 := if s ≠ "" ∧ parts = [] then total + s.length else total
    if MAX_RESPONSE_SIZE < total2 then ⟨parts2 ++ [truncNotice], ec, truncStderr err, false⟩
    else stepRun parts2 total2 rest ec err

/-- Function `_run_claude` on a whole stdout script, starting from no output. -/
def runClaude (script : List OutEvent) (ec : Int) (err : String) : RunRes :=
  stepRun [] 0 script ec err

/-- Returns `true` iff the read loop consumes the whole script without breaking:
no `eof`, no `timeout`, and the size cap is never tripped. -/
def runsThrough : List String → Nat → List OutEvent → Bool
  | _, _, [] => true
  | _, _, OutEvent.eof :: _ => false
  | _, _, OutEvent.timeout :: _ => false
  | p, t, OutEvent.blank :: r => runsThrough p t r
  | p, t, OutEvent.nonJson :: r =>
    !decide (MAX_RESPONSE_SIZE < t) && runsThrough p t r
  | p, t, OutEvent.assistant bs :: r =>
    let ts := blockTexts bs
    let t2 := t + (ts.map String.length).sum
    !decide (MAX_RESPONSE_SIZE < t2) && runsThrough (p ++ ts) t2 r
  | p, t, OutEvent.result s :: r =>
    let p2 := if s ≠ "" ∧ p = [] then p ++ [s] else p
    let t2 := if s ≠ "" ∧ p = [] then t + s.length else t
    !decide (MAX_RESPONSE_SIZE < t2) && runsThrough p2 t2 r

/-- The `parts` and `total_size` after processing a script that runs through. -/
def collectRun : List String → Nat → List OutEvent → List String × Nat
  | p, t, [] => (p, t)
  | p, t, OutEvent.eof :: _ => (p, t)
  | p, t, OutEvent.timeout :: _ => (p, t)
  | p, t, OutEvent.blank :: r => collectRun p t r
  | p, t, OutEvent.nonJson :: r => collectRun p t r
  | p, t, OutEvent.assistant bs :: r =>
    collectRun (p ++ blockTexts bs) (t + ((blockTexts bs).map String.length).sum) r
  | p, t, OutEvent.result s :: r =>
    if s ≠ "" ∧ p = [] then collectRun (p ++ [s]) (t + s.length) r else collectRun p t r

/-- The effect of processing one more line after state `(p, t)`: the new
`(parts, total_size)`, or `none` for the events that end the loop. -/
def lineAcc (p : List String) (t : Nat) : OutEvent → Option (List String × Nat)
  | OutEvent.eof => none
  | OutEvent.timeout => none
  | OutEvent.blank => some (p, t)
  | OutEvent.nonJson => some (p, t)
  | OutEvent.assistant bs =>
    some (p ++ blockTexts bs, t + ((blockTexts bs).map String.length).sum)
  | OutEvent.result s =>
    some (if s ≠ "" ∧ p = [] then p ++ [s] else p,
          if s ≠ "" ∧ p = [] then t + s.length else t)

/-- Whether the size-cap check runs after processing this event (blank lines
`continue` before the check, `eof`/`timeout` leave the loop). -/
def capChecked : OutEvent → Bool
  | OutEvent.blank => false
  | OutEvent.eof => false
  | OutEvent.timeout => false
  | _ => true

/-! ## Session Store (`load_session` / `save_session`, bridge.py lines 97-113)

`save_session` is modelled as the Session Store state itself: the `store`
field of `BridgeState` below is the value most recently passed to
`save_session` (the file write is atomic and best-effort; the persisted
record is `{"session_id": <value-or-null>}`). -/

/-- A decoded JSON value, as returned by `json.loads`. -/
inductive PyJson where
  | null
  | bool (b : Bool)
  | num (n : Int)
  | str (s : String)
  | arr (elems : List PyJson)
  | obj (fields : List (String × PyJson))

/-- Python `dict.get(key)`: the value of the first matching key, else `None`. -/
def lookupField : List (String × PyJson) → String → Option PyJson
  | [], _ => none
  | (k, v) :: rest, key => if k = key then some v else lookupField rest key

/-- Function `load_session` (bridge.py lines 97-103).  The argument describes the
session file: `none` = file absent; `some none` = file present but
`json.loads` raises `JSONDecodeError` (caught, returns `None`); `some (some j)`
= file parses to the JSON value `j`.  `.get("session_id")` only exists on a
dict: on any other value Python raises `AttributeError`, which is *not* in the
`except (json.JSONDecodeError, KeyError)` clause and propagates. -/
def loadSession (file : Option (Option PyJson)) : Except String (Option PyJson) :=
  match file with
  | none => .ok none
  | some none => .ok none
  | some (some (PyJson.obj fields)) => .ok (lookupField fields "session_id")
  | some (some _) => .error "AttributeError"

/-! ## Call Orchestrator (`call_claude`, bridge.py lines 183-233) -/

/-- The session-relevant shape of one CLI invocation: resume an existing
session (`-r sid`) or start a new one (`--session-id sid`), with the prompt.
The constant flags (binary, permissions, model, output format) are config
values identical on every invocation and are not modelled. -/
inductive CallCmd where
  | resume (sid : String) (prompt : String)
  | startNew (sid : String) (prompt : String)
deriving DecidableEq

/-- The mutable state of the bridge relevant to the claims: `session_id`,
`_explicit_session`, and the value last persisted by `save_session`. -/
structure BridgeState where
  session : Option String
  explicit : Bool
  store : Option String
deriving DecidableEq

/-- Python truthiness of a `str | None` value (`if session_id:`):
`None` and the empty string are falsy. -/
def strTruthy : Option String → Bool
  | none => false
  | some s => decide (s ≠ "")

/-- Python `"\n".join(parts)` (bridge.py line 233). -/
def joinParts (parts : List String) : String := String.intercalate "\n" parts

/-- The empty-response diagnostic (bridge.py line 229). -/
def emptyDiag (code : Int) (err : String) : String :=
  "(无响应 | exit=" ++ toString code ++ " | stderr=" ++ err ++ ")"

/-- The return value of `call_claude` for a completed run (bridge.py lines
228-233): the empty-response diagnostic, or the fragments joined by
newlines. -/
def finishCall (r : RunRes) : String :=
  if r.parts = [] then emptyDiag r.code r.err else joinParts r.parts

/-- The diagnostic returned when an explicitly attached session fails to
resume (bridge.py lines 207-211): instructs the operator to start a new
session with `/new` or reconnect with `/connect`. -/
def explicitDiag (sid : String) (code : Int) : String :=
  "会话 `" ++ sid ++ "` resume 失败（exit=" ++ toString code ++ "）。\n" ++
  "该会话可能已过期或不存在。\n" ++
  "使用 `/new` 开启新会话，或 `/connect <uuid>` 连接其他会话。"

/-- The outcome of one `call_claude` call: the returned text (or the
propagated exception), the state (globals + store) after the call, and the
sequence of Process Runner invocations it made. -/
structure CallOut where
  result : Except String String
  state : BridgeState
  trace : List CallCmd

/-- Function `call_claude` (bridge.py lines 183-233).  `runner` is the Process Runner
oracle (`.error e` models `_run_claude` raising, e.g. `FileNotFoundError`);
`freshTok` is the `uuid.uuid4()` supply, consumed in call order.  Faithful
points: the resume-or-create choice tests Python truthiness of `session_id`;
the fallback fires only when the exit code is non-zero *and* `session_id` is
truthy; an explicit session returns the diagnostic *before* `save_session`;
otherwise `save_session(session_id)` runs unconditionally at the end. -/
def callClaude (runner : CallCmd → Except String RunRes) (freshTok : Nat → String)
    (prompt : String) (st : BridgeState) : CallOut :=
  let resumed := strTruthy st.session
  let sid := if resumed then st.session.getD "" else freshTok 0
  let st0 := if resumed then st else { st with session := some sid }
  let c1 := if resumed then CallCmd.resume sid prompt else CallCmd.startNew sid prompt
  let nextIdx := if resumed then 0 else 1
  match runner c1 with
  | .error e => ⟨.error e, st0, [c1]⟩
  | .ok r1 =>
    if r1.code ≠ 0 ∧ strTruthy st0.session = true then
      if st0.explicit then ⟨.ok (explicitDiag sid r1.code), st0, [c1]⟩
      else
        let sid2 := freshTok nextIdx
        let c2 := CallCmd.startNew sid2 prompt
        let st1 := { st0 with session := some sid2 }
        match runner c2 with
        | .error e => ⟨.error e, st1, [c1, c2]⟩
        | .ok r2 => ⟨.ok (finishCall r2), { st1 with store := st1.session }, [c1, c2]⟩
    else ⟨.ok (finishCall r1), { st0 with store := st0.session }, [c1]⟩

/-! ## Handoff Coordinator (`/handoff` branch of `on_message`,
bridge.py lines 386-459) -/

/-- The fixed summarization prompt `HANDOFF_PROMPT` (bridge.py lines 41-71). -/
def handoffPrompt : String :=
  "你即将被新会话替换。请总结当前会话的完整上下文，生成一份交接文档。\n\n" ++
  "## 要求\n- 只基于本次会话中实际讨论过的内容，禁止脑补\n" ++
  "- 冷启动部分必须自包含（新会话无法访问本次对话历史）\n\n" ++
  "## 输出格式（严格遵守）\n\n# 交接文档\n\n## 当前目标\n[一句话]\n\n" ++
  "## 关键上下文与决策\n- [已做的重要决策]\n- [发现的关键约束]\n\n" ++
  "## 已完成\n- [本次会话中做了什么]\n\n## 待办\n- [未完成的任务，按优先级排列]\n\n" ++
  "## 已知问题\n- [阻塞项或风险]\n\n" ++
  "---COLDSTART-BEGIN---\n" ++
  "[将上述所有内容压缩为一段连贯的提示词。新会话收到这段文字后，应能完全理解上下文并继续工作。" ++
  "包含：目标、已完成的工作、关键决策、下一步行动、需要注意的约束。]\n" ++
  "---COLDSTART-END---\n"

/-- Python `str.find(sub)`: index of the first occurrence of `needle`, as an
index into the list, or `none` (Python `-1`). -/
def findSub (needle : List Char) : List Char → Option Nat
  | [] => if needle.isPrefixOf [] then some 0 else none
  | c :: t =>
    if needle.isPrefixOf (c :: t) then some 0
    else (findSub needle t).map (· + 1)

/-- Python whitespace for `str.strip()` / `str.split(None, ...)`. -/
def isPySpace (c : Char) : Bool :=
  c == ' ' || c == '\t' || c == '\n' || c == '\r' || c == '\x0b' || c == '\x0c'

/-- Python `str.strip()` on a character list. -/
def pyStripChars (l : List Char) : List Char :=
  ((l.dropWhile isPySpace).reverse.dropWhile isPySpace).reverse

/-- Function `_parse_coldstart` (bridge.py lines 237-245): locate both sentinels,
fail (`none`) if either is missing or the end does not strictly follow the
begin; otherwise slice between them, strip, and truncate over 4000 chars with
a notice.  The full text is returned unchanged alongside. -/
def parseColdstart (text : String) : Option String × String :=
  match findSub COLDSTART_BEGIN.data text.data, findSub COLDSTART_END.data text.data with
  | some b, some e =>
    if e ≤ b then (none, text)
    else
      let cs := pyStripChars ((text.data.drop (b + COLDSTART_BEGIN.length)).take
        (e - (b + COLDSTART_BEGIN.length)))
      let cs := if MAX_COLDSTART_LEN < cs.length
        then cs.take MAX_COLDSTART_LEN ++ "\n\n[...冷启动文本已截断...]".data
        else cs
      (some (String.mk cs), text)
  | _, _ => (none, text)

/-- The handoff-artifact directory: one full-document file per handoff,
keyed here by the predecessor session id (the timestamp prefix of the real
filename is abstracted away), plus the fixed `latest_coldstart.md` slot. -/
structure Disk where
  files : List (String × String)
  latest : Option String
deriving DecidableEq

/-- Function `_save_handoff` (bridge.py lines 248-256): write the full document under
the predecessor id, and overwrite the latest-coldstart slot when the
coldstart text is truthy (non-empty). -/
def saveHandoff (oldSid : String) (fullText : String) (coldstart : String) (d : Disk) : Disk :=
  { files := d.files ++ [(oldSid, fullText)],
    latest := if coldstart ≠ "" then some coldstart else d.latest }

/-- How one `/handoff` attempt ended (which reply `on_message` sent). -/
inductive HReply where
  | refused
  | sumFailed (e : String)
  | extractFailed (raw : String)
  | startFailed (e : String)
  | completed (old : String) (newSid : Option String)
deriving DecidableEq

/-- Result of one `/handoff` attempt: bridge state, artifact disk, reply. -/
structure HandoffOut where
  state : BridgeState
  disk : Disk
  reply : HReply
deriving DecidableEq

/-- The `/handoff` branch of `on_message` (bridge.py lines 386-459).
`freshS` / `freshN` are the uuid supplies of the summarize call and the
successor-start call.  A failing awaited call (`.error`) models
`call_claude` raising; the timed-out-`wait_for` case is the same `except`
path (asyncio cancellation timing is not modelled see the C4 discussion).
Faithful points: `old_sid` is captured before the summarize call; the
summarize/extraction failure paths return without touching the session
fields or the store; the artifact is written before the session is cleared;
on successor failure the predecessor token is restored, marked explicit and
persisted; on success `save_session(new_sid)` persists whatever token the
successor call created. -/
def handoffModel (runner : CallCmd → Except String RunRes) (freshS freshN : Nat → String)
    (st : BridgeState) (disk : Disk) : HandoffOut :=
  if strTruthy st.session = false then ⟨st, disk, .refused⟩
  else
    let old := st.session.getD ""
    let out1 := callClaude runner freshS handoffPrompt st
    match out1.result with
    | .error e => ⟨out1.state, disk, .sumFailed e⟩
    | .ok resp =>
      match parseColdstart resp with
      | (none, _) => ⟨out1.state, disk, .extractFailed resp⟩
      | (some cs, full) =>
        let disk1 := saveHandoff old full cs disk
        let st1 := { out1.state with session := none, explicit := false }
        let out2 := callClaude runner freshN cs st1
        match out2.result with
        | .error e =>
          ⟨{ out2.state with session := some old, explicit := true, store := some old },
            disk1, .startFailed e⟩
        | .ok _ =>
          ⟨{ out2.state with store := out2.state.session }, disk1,
            .completed old out2.state.session⟩

/-! ## Command Dispatcher (`on_message` command branches,
bridge.py lines 336-384) -/

/-- Config values shown by `/status`. -/
structure BotConfig where
  workingDir : String
  timeoutSecs : Nat

/-- The acknowledgment sent by `/new` and by `/connect` without argument
(bridge.py lines 341 and 371). -/
def resetReply : String := "会话已重置。"

/-- The `/status` reply (bridge.py lines 345-349); the shown session falls
back to the text `None` for falsy (absent or empty) tokens. -/
def statusReply (cfg : BotConfig) (st : BridgeState) : String :=
  "Session: `" ++
  (match st.session with
   | some s => if s = "" then "None" else s
   | none => "None") ++
  "`\nWorking dir: `" ++ cfg.workingDir ++ "`\nTimeout: `" ++
  toString cfg.timeoutSecs ++ "s`"

/-- The `/help` reply (bridge.py lines 353-361). -/
def helpReply : String :=
  "**可用命令**\n`/new` — 重置会话\n`/status` — 查看状态\n" ++
  "`/connect [session-id]` — 连接指定会话（无参数则重置）\n" ++
  "`/handoff` — 交接当前会话（总结→冷启动新会话）\n" ++
  "`/help` — 显示帮助\n其他消息 — 转发给 Claude"

/-- The rejection sent for a malformed `/connect` argument
(bridge.py lines 375-378). -/
def invalidUuidReply (cand : String) : String :=
  "无效的 session ID 格式：`" ++ cand ++ "`\n" ++
  "请提供标准 UUID（例如：`xxxxxxxx-xxxx-xxxx-xxxx-xxxxxxxxxxxx`）。"

/-- The acknowledgment for a successful `/connect <uuid>`
(bridge.py line 383). -/
def connectedReply (sid : String) : String := "已连接到会话 `" ++ sid ++ "`。"

/-- Python `text.split(None, 1)`: skip leading whitespace, take the first
whitespace-delimited token, then the remainder with the separating
whitespace removed (empty remainder yields a one-element list). -/
def pySplitNone1 (l : List Char) : List (List Char) :=
  let s1 := l.dropWhile isPySpace
  if s1.isEmpty then []
  else
    let tok := s1.takeWhile (fun c => !isPySpace c)
    let rest := (s1.dropWhile (fun c => !isPySpace c)).dropWhile isPySpace
    if rest.isEmpty then [tok] else [tok, rest]

/-- Hexadecimal digit, either case (`_UUID_RE` with `re.IGNORECASE`,
bridge.py lines 74-77). -/
def isHexChar (c : Char) : Bool :=
  (('0' ≤ c) && (c ≤ '9')) || (('a' ≤ c) && (c ≤ 'f')) || (('A' ≤ c) && (c ≤ 'F'))

/-- Consume exactly `n` hex digits, returning the remainder. -/
def chunkHex : Nat → List Char → Option (List Char)
  | 0, l => some l
  | n + 1, c :: rest => if isHexChar c then chunkHex n rest else none
  | _ + 1, [] => none

/-- Consume one hyphen. -/
def eatDash : List Char → Option (List Char)
  | c :: rest => if c = '-' then some rest else none
  | [] => none

/-- Function `_is_valid_uuid` (bridge.py lines 80-81): the candidate matches
`^hex{8}-hex{4}-hex{4}-hex{4}-hex{12}$` case-insensitively. -/
def isValidUuid (l : List Char) : Bool :=
  match ((((((((chunkHex 8 l).bind eatDash).bind (chunkHex 4)).bind eatDash).bind
      (chunkHex 4)).bind eatDash).bind (chunkHex 4)).bind eatDash).bind (chunkHex 12) with
  | some [] => true
  | _ => false

/-- The command branches of `on_message` (bridge.py lines 336-384) on the
stripped message text: `/new`, `/status`, `/help`, and `/connect` (matched
by `startswith` on the lowercased text; the argument is split from the
*original* text).  Returns the new bridge state and the reply, or `none`
when the text falls through to `/handoff` handling or prompt forwarding
(modelled separately).  `Char.toLower` agrees with Python `str.lower()` on
the ASCII command names involved. -/
def onCommand (text : List Char) (cfg : BotConfig) (st : BridgeState) :
    Option (BridgeState × String) :=
  let lower := text.map Char.toLower
  if lower = "/new".data then
    some ({ session := none, explicit := false, store := none }, resetReply)
  else if lower = "/status".data then
    some (st, statusReply cfg st)
  else if lower = "/help".data then
    some (st, helpReply)
  else if "/connect".data.isPrefixOf lower then
    match pySplitNone1 text with
    | [_] => some ({ session := none, explicit := false, store := none }, resetReply)
    | [_, rest] =>
      let cand := pyStripChars rest
      if !isValidUuid cand then some (st, invalidUuidReply (String.mk cand))
      else some ({ session := some (String.mk cand), explicit := true,
                   store := some (String.mk cand) }, connectedReply (String.mk cand))
    | _ => none
  else none

/-! ## Chunk decomposition apparatus (for the chunking claims)

`send_long` may prepend a reopening marker `"```\n"` to the remaining text
and append a closing marker `"\n```"` to a chunk, and it drops the run of
newlines following each cut.  A *piece* `(body, sep)` records, for one
emitted chunk, the slice of the original text it carries and the newline run
dropped right after it. -/

/-- The emitted chunk is a (possibly partial, possibly empty) prefix of the
inserted reopening marker, then the body slice, then an optional inserted
closing marker; and the dropped separator is all newlines. -/
def chunkMatches (ch : List Char) (piece : List Char × List Char) : Prop :=
  (∃ pre post, ch = pre ++ piece.1 ++ post ∧ pre <+: "```\n".data ∧
    (post = [] ∨ post = "\n```".data)) ∧ ∀ c ∈ piece.2, c = '\n'

/-- Concatenation of the bodies with their dropped newline runs re-inserted. -/
def piecesText (ps : List (List Char × List Char)) : List Char :=
  (ps.map fun p => p.1 ++ p.2).flatten

/-! ## Concrete data for witnesses and counterexamples -/

/-- An empty handoff-artifact directory. -/
def diskEmpty : Disk := ⟨[], none⟩

/-- A numbered uuid supply for witness scenarios. -/
def tokSupply (pre : String) : Nat → String := fun n => pre ++ toString n

/-- A bridge state with a system-generated (non-explicit) token `"OLD"`. -/
def stOldLax : BridgeState := ⟨some "OLD", false, some "OLD"⟩

/-- A runner whose resume attempt exits 1 and whose start-new attempt raises
`FileNotFoundError` (the binary disappeared between the two invocations). -/
def c4runner : CallCmd → Except String RunRes := fun c =>
  match c with
  | CallCmd.resume _ _ => .ok ⟨[], 1, "", false⟩
  | CallCmd.startNew _ _ => .error "FileNotFoundError"

/-- A summary text containing a well-formed coldstart block. -/
def goodSummary : String :=
  "doc ---COLDSTART-BEGIN--- CS ---COLDSTART-END--- tail"

/-- A runner for which every invocation succeeds: resume returns the
well-formed summary, start-new returns a plain answer. -/
def okRunner : CallCmd → Except String RunRes := fun c =>
  match c with
  | CallCmd.resume _ _ => .ok ⟨[goodSummary], 0, "", false⟩
  | CallCmd.startNew _ _ => .ok ⟨["ok"], 0, "", false⟩

/-- A 50,001-character fragment, enough to trip the size cap on its own. -/
def bigStr : String := String.mk (List.replicate 50001 'a')

/-- A 2003-character text opening a code fence and containing no newline or
space: `"```" + "a"*2000`. -/
def c5bad : List Char := "```".data ++ List.replicate 2000 'a'

/-- A 2002-character fence-free text whose only newline sits right after the
2000-character hard cut: `"a"*2000 + "\n" + "b"`. -/
def c6bad : List Char := List.replicate 2000 'a' ++ "\nb".data

/-! ## Theorems -/

/-- Claim C9 (code bug): `load_session` is claimed to return a token or no
token and never raise for *any* state of the session file, but a file whose
contents are valid JSON that is not an object (for example `[]`) makes
`.get("session_id")` raise `AttributeError`, which the
`except (json.JSONDecodeError, KeyError)` clause does not catch: the error
propagates to the caller. -/
theorem c9_load_raises :
    loadSession (some (some (PyJson.arr []))) = .error "AttributeError" := rfl

/-- Claim C10: `/connect` with no argument behaves identically to `/new`:
it clears the session token and the explicit flag, persists the absent
token, and acknowledges with the same reset message (it does not reject for
a missing UUID). -/
theorem c10_connect_noarg (cfg : BotConfig) (st : BridgeState) :
    onCommand "/connect".data cfg st = onCommand "/new".data cfg st ∧
    onCommand "/connect".data cfg st =
      some ({ session := none, explicit := false, store := none }, resetReply) := by
  exact ⟨rfl, rfl⟩

/-- Claim C1: with a set, non-explicit session token, a non-zero exit of the
resume invocation makes `call_claude` generate a fresh token, re-invoke the
Process Runner in start-new-session mode with the same prompt, adopt the new
token and the result of the second attempt regardless of its exit code, and
persist the new token to the Session Store. -/
theorem c1_nonexplicit_resume_rotates
    (runner : CallCmd → Except String RunRes) (freshTok : Nat → String)
    (prompt : String) (st : BridgeState) (t : String) (r1 r2 : RunRes)
    (hs : st.session = some t) (ht : t ≠ "") (hx : st.explicit = false)
    (h1 : runner (CallCmd.resume t prompt) = .ok r1) (hc : r1.code ≠ 0)
    (h2 : runner (CallCmd.startNew (freshTok 0) prompt) = .ok r2) :
    callClaude runner freshTok prompt st =
      ⟨.ok (finishCall r2),
       { session := some (freshTok 0), explicit := false, store := some (freshTok 0) },
       [CallCmd.resume t prompt, CallCmd.startNew (freshTok 0) prompt]⟩ := by
  obtain ⟨ses, ex, sto⟩ := st
  simp only [BridgeState.mk.injEq] at hs hx ⊢
  subst hs
  subst hx
  unfold callClaude
  simp [strTruthy, ht, h1, hc, h2]

/-- Witness for C1 at a concrete runner, token supply and state. -/
theorem c1_witness :
    callClaude
      (fun c => match c with
        | CallCmd.resume _ _ => .ok ⟨[], 1, "", false⟩
        | CallCmd.startNew _ _ => .ok ⟨["hi"], 0, "", false⟩)
      (fun _ => "f0") "p" ⟨some "t0", false, some "t0"⟩ =
      ⟨.ok "hi", ⟨some "f0", false, some "f0"⟩,
       [CallCmd.resume "t0" "p", CallCmd.startNew "f0" "p"]⟩ := by
  simpa [finishCall, joinParts] using
    c1_nonexplicit_resume_rotates
      (fun c => match c with
        | CallCmd.resume _ _ => .ok ⟨[], 1, "", false⟩
        | CallCmd.startNew _ _ => .ok ⟨["hi"], 0, "", false⟩)
      (fun _ => "f0") "p" ⟨some "t0", false, some "t0"⟩ "t0"
      ⟨[], 1, "", false⟩ ⟨["hi"], 0, "", false⟩
      rfl (by decide) rfl rfl (by decide) rfl

/-- Claim C2: with a set, explicit session token, a non-zero exit of the
resume invocation makes `call_claude` return the diagnostic instructing the
operator to reset (`/new`) or reconnect (`/connect`), invoke the Process
Runner exactly once, leave the token value and the explicit flag unchanged,
and persist nothing (the whole state, store included, is unchanged). -/
theorem c2_explicit_resume_surfaces
    (runner : CallCmd → Except String RunRes) (freshTok : Nat → String)
    (prompt : String) (st : BridgeState) (t : String) (r1 : RunRes)
    (hs : st.session = some t) (ht : t ≠ "") (hx : st.explicit = true)
    (h1 : runner (CallCmd.resume t prompt) = .ok r1) (hc : r1.code ≠ 0) :
    callClaude runner freshTok prompt st =
      ⟨.ok (explicitDiag t r1.code), st, [CallCmd.resume t prompt]⟩ := by
  obtain ⟨ses, ex, sto⟩ := st
  simp only [BridgeState.mk.injEq] at hs hx ⊢
  subst hs
  subst hx
  unfold callClaude
  simp [strTruthy, ht, h1, hc]

/-- Witness for C2 at a concrete runner and state. -/
theorem c2_witness :
    callClaude
      (fun c => match c with
        | CallCmd.resume _ _ => .ok ⟨[], 1, "", false⟩
        | CallCmd.startNew _ _ => .ok ⟨["hi"], 0, "", false⟩)
      (fun _ => "f0") "p" ⟨some "t0", true, some "t0"⟩ =
      ⟨.ok (explicitDiag "t0" 1), ⟨some "t0", true, some "t0"⟩,
       [CallCmd.resume "t0" "p"]⟩ := by
  simpa using
    c2_explicit_resume_surfaces
      (fun c => match c with
        | CallCmd.resume _ _ => .ok ⟨[], 1, "", false⟩
        | CallCmd.startNew _ _ => .ok ⟨["hi"], 0, "", false⟩)
      (fun _ => "f0") "p" ⟨some "t0", true, some "t0"⟩ "t0"
      ⟨[], 1, "", false⟩ rfl (by decide) rfl rfl (by decide)

/-- Function `call_claude` never writes `_explicit_session`: the explicit flag after
any call equals the flag before it. -/
theorem callClaude_keeps_explicit (runner : CallCmd → Except String RunRes)
    (freshTok : Nat → String) (prompt : String) (st : BridgeState) :
    (callClaude runner freshTok prompt st).state.explicit = st.explicit := by
  simp only [callClaude]
  repeat' split
  all_goals rfl

/-- If `call_claude` propagates an exception, `save_session` was never
reached: the store is unchanged. -/
theorem callClaude_error_keeps_store {runner : CallCmd → Except String RunRes}
    {freshTok : Nat → String} {prompt : String} {st : BridgeState} {e : String}
    (h : (callClaude runner freshTok prompt st).result = .error e) :
    (callClaude runner freshTok prompt st).state.store = st.store := by
  revert h
  simp only [callClaude]
  repeat' split
  all_goals intro h
  all_goals simp_all

/-- If `call_claude` starts from a truthy session and propagates an
exception, the in-memory token is either unchanged (exception during the
resume attempt) or already rotated to the first fresh token (exception
during the non-explicit fallback re-invocation). -/
theorem callClaude_error_session {runner : CallCmd → Except String RunRes}
    {freshTok : Nat → String} {prompt : String} {st : BridgeState} {e : String}
    (hts : strTruthy st.session = true)
    (h : (callClaude runner freshTok prompt st).result = .error e) :
    (callClaude runner freshTok prompt st).state.session = st.session ∨
      (st.explicit = false ∧
        (callClaude runner freshTok prompt st).state.session = some (freshTok 0)) := by
  revert h
  simp only [callClaude, hts]
  repeat' split
  all_goals intro h
  all_goals simp_all

/-- A `call_claude` run that starts with no session and a cleared explicit
flag and returns normally ends with the session being one of the first two
fresh tokens (the second when the brand-new session itself failed to start
and was rotated once more), and persists exactly that session. -/
theorem callClaude_new_session {runner : CallCmd → Except String RunRes}
    {freshTok : Nat → String} {prompt : String} {st : BridgeState} {txt : String}
    (hs : st.session = none) (hx : st.explicit = false)
    (h : (callClaude runner freshTok prompt st).result = .ok txt) :
    ((callClaude runner freshTok prompt st).state.session = some (freshTok 0) ∨
      (callClaude runner freshTok prompt st).state.session = some (freshTok 1)) ∧
    (callClaude runner freshTok prompt st).state.store =
      (callClaude runner freshTok prompt st).state.session := by
  obtain ⟨ses, ex, sto⟩ := st
  simp only at hs hx
  subst hs; subst hx
  revert h
  simp only [callClaude, strTruthy]
  repeat' split
  all_goals intro h
  all_goals simp_all

/-- Claim C3: for a handoff that reaches the starting-successor step,
(a) if the successor-start call fails, the state after the handoff is
exactly the predecessor token, marked explicit, with that restoration
persisted; (b) if it succeeds, the persisted token equals the session after
the successor call — which is a token newly created by the uuid supply of
the successor call — and the predecessor full-document artifact file exists on
disk. -/
theorem c3_handoff_atomicity
    (runner : CallCmd → Except String RunRes) (freshS freshN : Nat → String)
    (st : BridgeState) (disk : Disk) (old : String)
    (hs : st.session = some old) (ht : old ≠ "") :
    (∀ e, (handoffModel runner freshS freshN st disk).reply = HReply.startFailed e →
        (handoffModel runner freshS freshN st disk).state = ⟨some old, true, some old⟩) ∧
    (∀ o n, (handoffModel runner freshS freshN st disk).reply = HReply.completed o n →
        o = old ∧
        (handoffModel runner freshS freshN st disk).state.session = n ∧
        (handoffModel runner freshS freshN st disk).state.store = n ∧
        (n = some (freshN 0) ∨ n = some (freshN 1)) ∧
        ∃ full, (old, full) ∈ (handoffModel runner freshS freshN st disk).disk.files) := by
  have ht' : strTruthy (some old) = true := by simp [strTruthy, ht]
  simp only [handoffModel, hs, ht', Option.getD_some, Bool.true_eq_false, if_false]
  rcases hres1 : (callClaude runner freshS handoffPrompt st).result with e1 | resp
  · simp only [hres1]
    constructor
    · intro e hrep
      simp at hrep
    · intro o n hrep
      simp at hrep
  · simp only [hres1]
    rcases hp : parseColdstart resp with ⟨csOpt, full0⟩
    rcases csOpt with _ | cs
    · simp only [hp]
      constructor
      · intro e hrep
        simp at hrep
      · intro o n hrep
        simp at hrep
    · simp only [hp]
      rcases hres2 : (callClaude runner freshN cs
          { (callClaude runner freshS handoffPrompt st).state with
            session := none, explicit := false }).result with e2 | txt
      · simp only [hres2]
        constructor
        · intro e hrep
          trivial
        · intro o n hrep
          simp at hrep
      · simp only [hres2]
        constructor
        · intro e hrep
          simp at hrep
        · intro o n hrep
          simp only [HReply.completed.injEq] at hrep
          obtain ⟨ho, hn⟩ := hrep
          subst ho
          refine ⟨rfl, by simp [hn], by simp [hn], ?_, full0, ?_⟩
          · rw [← hn]
            exact (callClaude_new_session rfl rfl hres2).1
          · simp [saveHandoff]

/-- Claim C4 (amended): if the summarizing step of a handoff fails (the
awaited `call_claude` raises), the handoff aborts with the explicit flag,
the persisted token and the artifact directory unchanged; the in-memory
token is also unchanged unless the failure occurred after the non-explicit
resume-fallback had already rotated it inside the summarize call, in which
case it equals that (unpersisted) fresh token. -/
theorem c4_summarize_failure_frame
    (runner : CallCmd → Except String RunRes) (freshS freshN : Nat → String)
    (st : BridgeState) (disk : Disk) (e : String)
    (h : (handoffModel runner freshS freshN st disk).reply = HReply.sumFailed e) :
    (handoffModel runner freshS freshN st disk).state.explicit = st.explicit ∧
    (handoffModel runner freshS freshN st disk).state.store = st.store ∧
    (handoffModel runner freshS freshN st disk).disk = disk ∧
    ((handoffModel runner freshS freshN st disk).state.session = st.session ∨
      (st.explicit = false ∧
        (handoffModel runner freshS freshN st disk).state.session = some (freshS 0))) := by
  revert h
  simp only [handoffModel]
  repeat' split
  all_goals intro h
  all_goals try (exfalso; simp_all; done)
  rename_i hneg x e1 heq
  rw [Bool.not_eq_false] at hneg
  simp only [HReply.sumFailed.injEq] at h
  subst h
  exact ⟨callClaude_keeps_explicit _ _ _ _, callClaude_error_keeps_store heq, rfl,
    callClaude_error_session hneg heq⟩

/-- Counterexample to C4 as stated: with a non-explicit token `"OLD"`, a
resume attempt that exits 1 and a fallback re-invocation that raises
`FileNotFoundError`, the summarize step fails but the in-memory session
token after the handoff is the rotated fresh token, not the token from
before the handoff began. -/
theorem c4_counterexample :
    (handoffModel c4runner (tokSupply "S") (tokSupply "N") stOldLax diskEmpty).reply =
      HReply.sumFailed "FileNotFoundError" ∧
    (handoffModel c4runner (tokSupply "S") (tokSupply "N") stOldLax diskEmpty).state.session ≠
      stOldLax.session := by
  decide

/-- Witness for the amended C4 at the concrete failing scenario. -/
theorem c4_amended_witness :
    (handoffModel c4runner (tokSupply "S") (tokSupply "N") stOldLax diskEmpty).state.explicit =
      stOldLax.explicit ∧
    (handoffModel c4runner (tokSupply "S") (tokSupply "N") stOldLax diskEmpty).state.store =
      stOldLax.store ∧
    (handoffModel c4runner (tokSupply "S") (tokSupply "N") stOldLax diskEmpty).disk = diskEmpty ∧
    ((handoffModel c4runner (tokSupply "S") (tokSupply "N") stOldLax diskEmpty).state.session =
        stOldLax.session ∨
      (stOldLax.explicit = false ∧
        (handoffModel c4runner (tokSupply "S") (tokSupply "N") stOldLax diskEmpty).state.session =
          some (tokSupply "S" 0))) :=
  c4_summarize_failure_frame c4runner (tokSupply "S") (tokSupply "N") stOldLax diskEmpty
    "FileNotFoundError" (by decide)

/-- Witness for C3 at a concrete fully-successful scenario. -/
theorem c3_witness :
    (∀ e, (handoffModel okRunner (tokSupply "S") (tokSupply "N") stOldLax diskEmpty).reply =
        HReply.startFailed e →
        (handoffModel okRunner (tokSupply "S") (tokSupply "N") stOldLax diskEmpty).state =
          ⟨some "OLD", true, some "OLD"⟩) ∧
    (∀ o n, (handoffModel okRunner (tokSupply "S") (tokSupply "N") stOldLax diskEmpty).reply =
        HReply.completed o n →
        o = "OLD" ∧
        (handoffModel okRunner (tokSupply "S") (tokSupply "N") stOldLax diskEmpty).state.session = n ∧
        (handoffModel okRunner (tokSupply "S") (tokSupply "N") stOldLax diskEmpty).state.store = n ∧
        (n = some (tokSupply "N" 0) ∨ n = some (tokSupply "N" 1)) ∧
        ∃ full, ("OLD", full) ∈
          (handoffModel okRunner (tokSupply "S") (tokSupply "N") stOldLax diskEmpty).disk.files) :=
  c3_handoff_atomicity okRunner (tokSupply "S") (tokSupply "N") stOldLax diskEmpty "OLD"
    rfl (by decide)

/-- The read loop is incremental: a script prefix that runs through (no
`eof`, no `timeout`, cap never tripped) just advances the accumulated
state before the rest of the script is processed. -/
theorem stepRun_append (pre : List OutEvent) :
    ∀ (p : List String) (t : Nat), runsThrough p t pre = true →
    ∀ (tail : List OutEvent) (ec : Int) (err : String),
    stepRun p t (pre ++ tail) ec err =
      stepRun (collectRun p t pre).1 (collectRun p t pre).2 tail ec err := by
  induction pre with
  | nil => intro p t _ tail ec err; rfl
  | cons e r ih =>
    intro p t h tail ec err
    cases e with
    | eof => simp [runsThrough] at h
    | timeout => simp [runsThrough] at h
    | blank =>
      simp only [runsThrough] at h
      simpa [stepRun, collectRun] using ih p t h tail ec err
    | nonJson =>
      simp only [runsThrough, Bool.and_eq_true, Bool.not_eq_true',
        decide_eq_false_iff_not] at h
      obtain ⟨h1, h2⟩ := h
      simp only [List.cons_append, stepRun, collectRun]
      rw [if_neg h1]
      exact ih p t h2 tail ec err
    | assistant bs =>
      simp only [runsThrough, Bool.and_eq_true, Bool.not_eq_true',
        decide_eq_false_iff_not] at h
      obtain ⟨h1, h2⟩ := h
      simp only [List.cons_append, stepRun, collectRun]
      rw [if_neg h1]
      exact ih _ _ h2 tail ec err
    | result s =>
      simp only [runsThrough, Bool.and_eq_true, Bool.not_eq_true',
        decide_eq_false_iff_not] at h
      obtain ⟨h1, h2⟩ := h
      by_cases hc : s ≠ "" ∧ p = []
      · simp only [List.cons_append, stepRun, collectRun, if_pos hc] at h1 h2 ⊢
        rw [if_neg h1]
        exact ih _ _ h2 tail ec err
      · simp only [List.cons_append, stepRun, collectRun, if_neg hc] at h1 h2 ⊢
        rw [if_neg h1]
        exact ih _ _ h2 tail ec err

/-- Claim C7: when reading the next output line times out after a prefix of
the script that ran through, `_run_claude` forcibly terminates and reaps the
process (`killed = true` models the `_kill_proc` call) and returns the
fragments collected so far — or the single sentinel fragment if none — with
exit code 1 and error tag `"timeout"`. -/
theorem c7_timeout_returns_collected (pre rest : List OutEvent) (ec : Int) (err : String)
    (h : runsThrough [] 0 pre = true) :
    runClaude (pre ++ OutEvent.timeout :: rest) ec err =
      ⟨if (collectRun [] 0 pre).1 = [] then [timeoutSentinel] else (collectRun [] 0 pre).1,
       1, "timeout", true⟩ := by
  unfold runClaude
  rw [stepRun_append pre [] 0 h]
  rfl

/-- Witness for C7: one assistant line, then a timeout; the pending rest of
the script is never read. -/
theorem c7_witness :
    runClaude ([OutEvent.assistant [OutBlock.text "hello"]] ++
        OutEvent.timeout :: [OutEvent.eof]) 0 "boom" =
      ⟨["hello"], 1, "timeout", true⟩ := by
  have h := c7_timeout_returns_collected [OutEvent.assistant [OutBlock.text "hello"]]
    [OutEvent.eof] 0 "boom" (by decide)
  simpa [collectRun, blockTexts] using h

/-- Claim C8: once processing one more line pushes the accumulated fragment
size beyond 50,000 characters, `_run_claude` appends the truncation notice
to the fragment sequence and stops: the result does not depend on the rest
of the script (`rest` is arbitrary and absent from the right-hand side). -/
theorem c8_truncation_stops_reading (pre : List OutEvent) (x : OutEvent)
    (rest : List OutEvent) (ec : Int) (err : String) (p2 : List String) (t2 : Nat)
    (hpre : runsThrough [] 0 pre = true)
    (hx : lineAcc (collectRun [] 0 pre).1 (collectRun [] 0 pre).2 x = some (p2, t2))
    (hcap : capChecked x = true)
    (hover : MAX_RESPONSE_SIZE < t2) :
    runClaude (pre ++ x :: rest) ec err =
      ⟨p2 ++ [truncNotice], ec, truncStderr err, false⟩ := by
  unfold runClaude
  rw [stepRun_append pre [] 0 hpre]
  cases x with
  | eof => simp [lineAcc] at hx
  | timeout => simp [lineAcc] at hx
  | blank => simp [capChecked] at hcap
  | nonJson =>
    simp only [lineAcc, Option.some.injEq, Prod.mk.injEq] at hx
    obtain ⟨hp, ht⟩ := hx
    subst hp; subst ht
    simp [stepRun, hover]
  | assistant bs =>
    simp only [lineAcc, Option.some.injEq, Prod.mk.injEq] at hx
    obtain ⟨hp, ht⟩ := hx
    subst hp; subst ht
    simp [stepRun, hover]
  | result s =>
    simp only [lineAcc, Option.some.injEq, Prod.mk.injEq] at hx
    obtain ⟨hp, ht⟩ := hx
    subst hp; subst ht
    simp [stepRun, hover]

/-- Applying `String.length` to an explicitly built string gives the underlying list
length. -/
theorem string_mk_length (l : List Char) : (String.mk l).length = l.length := rfl

/-- Witness for C8: a single oversized `result` line trips the cap; the
pending assistant line is never read. -/
theorem c8_witness :
    runClaude ([] ++ OutEvent.result bigStr :: [OutEvent.assistant [OutBlock.text "zz"]])
        0 "e" =
      ⟨[bigStr] ++ [truncNotice], 0, truncStderr "e", false⟩ := by
  have hlen : bigStr.length = 50001 := by
    have hdata : bigStr.length = (List.replicate 50001 'a').length := rfl
    rw [hdata, List.length_replicate]
  have hne : bigStr ≠ "" := by
    intro hcon
    rw [hcon] at hlen
    simp at hlen
  have hx : lineAcc [] 0 (OutEvent.result bigStr) = some ([bigStr], 50001) := by
    simp [lineAcc, hne, hlen]
  have hov : MAX_RESPONSE_SIZE < 50001 := by
    rw [MAX_RESPONSE_SIZE]; omega
  exact c8_truncation_stops_reading [] (OutEvent.result bigStr)
    [OutEvent.assistant [OutBlock.text "zz"]] 0 "e" [bigStr] 50001 rfl hx rfl hov

/-! ### Chunker groundwork -/

/-- Function `lastIdxOf` finds nothing iff the character is absent. -/
theorem lastIdxOf_eq_none_of_not_mem {c : Char} {l : List Char} (h : c ∉ l) :
    lastIdxOf c l = none := by
  induction l with
  | nil => rfl
  | cons a t ih =>
    simp only [List.mem_cons, not_or] at h
    obtain ⟨h1, h2⟩ := h
    simp [lastIdxOf, ih h2, Ne.symm h1]

/-- A found index is inside the list and holds the character. -/
theorem lastIdxOf_spec {c : Char} {l : List Char} {k : Nat}
    (h : lastIdxOf c l = some k) : k < l.length ∧ l[k]? = some c := by
  induction l generalizing k with
  | nil => simp [lastIdxOf] at h
  | cons a t ih =>
    simp only [lastIdxOf] at h
    cases hrec : lastIdxOf c t with
    | some j =>
      rw [hrec] at h
      simp only [Option.some.injEq] at h
      subst h
      obtain ⟨hj1, hj2⟩ := ih hrec
      constructor
      · simpa using Nat.succ_lt_succ hj1
      · simpa using hj2
    | none =>
      rw [hrec] at h
      by_cases ha : a = c
      · rw [if_pos ha] at h
        obtain rfl : (0 : Nat) = k := by simpa using h
        simp [ha]
      · simp [ha] at h

/-- Function `lastIdxOf` dominates every occurrence. -/
theorem lastIdxOf_ge {c : Char} {l : List Char} {i : Nat}
    (h : l[i]? = some c) : ∃ k, lastIdxOf c l = some k ∧ i ≤ k := by
  induction l generalizing i with
  | nil => simp at h
  | cons a t ih =>
    cases i with
    | zero =>
      simp only [List.getElem?_cons_zero, Option.some.injEq] at h
      subst h
      cases hrec : lastIdxOf a t with
      | some j => exact ⟨j + 1, by simp [lastIdxOf, hrec], Nat.zero_le _⟩
      | none => exact ⟨0, by simp [lastIdxOf, hrec], Nat.le_refl 0⟩
    | succ i0 =>
      simp only [List.getElem?_cons_succ] at h
      obtain ⟨k0, hk1, hk2⟩ := ih h
      exact ⟨k0 + 1, by simp [lastIdxOf, hk1], Nat.succ_le_succ hk2⟩

/-- When the first 2000 characters hold neither a newline nor a space, the
cut is the hard cut at 2000. -/
theorem chooseCut_eq_max {l : List Char}
    (h1 : '\n' ∉ l.take MAX_MSG_LEN) (h2 : ' ' ∉ l.take MAX_MSG_LEN) :
    chooseCut l = MAX_MSG_LEN := by
  simp [chooseCut, pyRfind, lastIdxOf_eq_none_of_not_mem h1,
    lastIdxOf_eq_none_of_not_mem h2]

/-- The cut is always positive. -/
theorem chooseCut_pos (l : List Char) : 1 ≤ chooseCut l := by
  simp only [chooseCut, pyRfind]
  cases hn : lastIdxOf '\n' (l.take MAX_MSG_LEN) with
  | none =>
    cases hs : lastIdxOf ' ' (l.take MAX_MSG_LEN) with
    | none => simp [MAX_MSG_LEN]
    | some k =>
      by_cases hk : (k : Int) ≤ 0
      · simp [hk, MAX_MSG_LEN]
      · simp only [if_neg hk, reduceIte]
        omega
  | some k =>
    by_cases hk : (k : Int) ≤ 0
    · simp only [if_pos hk]
      cases hs : lastIdxOf ' ' (l.take MAX_MSG_LEN) with
      | none => simp [MAX_MSG_LEN]
      | some m =>
        by_cases hm : (m : Int) ≤ 0
        · simp [hm, MAX_MSG_LEN]
        · simp only [if_neg hm, reduceIte]
          omega
    · simp only [if_neg hk]
      omega

/-- The cut never exceeds 2000. -/
theorem chooseCut_le (l : List Char) : chooseCut l ≤ MAX_MSG_LEN := by
  have hbound : ∀ c k, lastIdxOf c (l.take MAX_MSG_LEN) = some k → k ≤ MAX_MSG_LEN := by
    intro c k hk
    have := (lastIdxOf_spec hk).1
    have hlen : (l.take MAX_MSG_LEN).length ≤ MAX_MSG_LEN := by
      simp [List.length_take]
    omega
  simp only [chooseCut, pyRfind]
  cases hn : lastIdxOf '\n' (l.take MAX_MSG_LEN) with
  | none =>
    cases hs : lastIdxOf ' ' (l.take MAX_MSG_LEN) with
    | none => simp
    | some k =>
      have := hbound _ _ hs
      by_cases hk : (k : Int) ≤ 0
      · simp [hk]
      · simp only [if_neg hk, reduceIte]
        omega
  | some k =>
    have := hbound _ _ hn
    by_cases hk : (k : Int) ≤ 0
    · simp only [if_pos hk]
      cases hs : lastIdxOf ' ' (l.take MAX_MSG_LEN) with
      | none => simp
      | some m =>
        have := hbound _ _ hs
        by_cases hm : (m : Int) ≤ 0
        · simp [hm]
        · simp only [if_neg hm, reduceIte]
          omega
    · simp only [if_neg hk]
      omega

/-- A newline at a positive index below 2000 forces the cut at or beyond it
(the newline branch wins and `rfind` is maximal). -/
theorem chooseCut_ge_of_nl {l : List Char} {i : Nat}
    (h : l[i]? = some '\n') (hpos : 0 < i) (hlt : i < MAX_MSG_LEN) :
    i ≤ chooseCut l := by
  have htake : (l.take MAX_MSG_LEN)[i]? = some '\n' := by
    rw [List.getElem?_take_of_lt hlt]
    exact h
  obtain ⟨k, hk1, hk2⟩ := lastIdxOf_ge htake
  have hkpos : ¬ ((k : Int) ≤ 0) := by
    have : 0 < k := Nat.lt_of_lt_of_le hpos hk2
    omega
  simp only [chooseCut, pyRfind, hk1, if_neg hkpos]
  omega

/-- A list free of backticks contains no fence marker. -/
theorem countFence_no_tick {l : List Char} (h : ∀ c ∈ l, c ≠ tick) :
    countFence l = 0 := by
  induction l with
  | nil => rfl
  | cons a t ih =>
    cases t with
    | nil => rfl
    | cons b t2 =>
      cases t2 with
      | nil => rfl
      | cons c t3 =>
        have ha : a ≠ tick := h a (by simp)
        have hcond : ¬ ([a, b, c] = "```".data) := by
          intro hcon
          rw [show ("```".data : List Char) = [tick, tick, tick] from by decide] at hcon
          simp only [List.cons.injEq] at hcon
          exact ha hcon.1
        have ht : ∀ x ∈ b :: c :: t3, x ≠ tick := by
          intro x hx
          exact h x (List.mem_cons_of_mem a hx)
        simpa [countFence, hcond] using ih ht

/-- A leading fence marker contributes exactly one count. -/
theorem countFence_fence_append (l : List Char) :
    countFence ("```".data ++ l) = countFence l + 1 := by
  rw [show ("```".data : List Char) = [tick, tick, tick] from by decide]
  show countFence (tick :: tick :: tick :: l) = countFence l + 1
  rw [show (tick :: tick :: tick :: l : List Char) = [tick, tick, tick] ++ l from rfl]
  simp only [countFence, List.cons_append, List.nil_append]
  rw [if_pos (by decide : ([tick, tick, tick] : List Char) = "```".data)]
  simp

/-- Function `send_long` on the empty text sends nothing. -/
theorem sendLong_nil (f : Nat) : sendLong f [] = some [] := by
  rw [sendLong.eq_def]
  simp

/-- Function `send_long` sends a fitting text whole. -/
theorem sendLong_small (f : Nat) (s : List Char) (hne : s ≠ [])
    (hlen : s.length ≤ MAX_MSG_LEN) : sendLong f s = some [s] := by
  rw [sendLong.eq_def]
  simp [hne, hlen]

/-- One iteration of `send_long` on an oversized text. -/
theorem sendLong_step (f : Nat) (s : List Char) (hne : s ≠ [])
    (hlen : ¬ s.length ≤ MAX_MSG_LEN) :
    sendLong (f + 1) s =
      (if countFence (s.take (chooseCut s)) % 2 = 1 then
        (sendLong f ("```\n".data ++ (s.drop (chooseCut s)).dropWhile (· == '\n'))).map
          (fun cs => (s.take (chooseCut s) ++ "\n```".data) :: cs)
      else
        (sendLong f ((s.drop (chooseCut s)).dropWhile (· == '\n'))).map
          (fun cs => s.take (chooseCut s) :: cs)) := by
  conv_lhs => rw [sendLong.eq_def]
  simp [hne, hlen]

/-- Out of fuel on an oversized text: the model yields no chunk list. -/
theorem sendLong_zero_big (s : List Char) (hne : s ≠ [])
    (hlen : ¬ s.length ≤ MAX_MSG_LEN) : sendLong 0 s = none := by
  rw [sendLong.eq_def]
  simp [hne, hlen]

/-- Running `send_long` on `c5bad`: the hard cut keeps the whole opening fence in
the first chunk, the repair appends a closing fence, and the prepended
reopening fence plus the remaining three characters form the second chunk. -/
theorem sendLong_c5bad :
    sendLong 2 c5bad =
      some [("```".data ++ List.replicate 1997 'a') ++ "\n```".data,
            "```\n".data ++ List.replicate 3 'a'] := by
  have hM : MAX_MSG_LEN = 2000 := rfl
  have h3 : ("```".data : List Char).length = 3 := by decide
  have hlen : c5bad.length = 2003 := by
    rw [c5bad, List.length_append, h3, List.length_replicate]
  have htake : c5bad.take 2000 = "```".data ++ List.replicate 1997 'a' := by
    rw [c5bad, List.take_append_eq_append_take, List.take_of_length_le (by rw [h3]; omega), h3]
    norm_num
  have hdrop : c5bad.drop 2000 = List.replicate 3 'a' := by
    rw [c5bad, List.drop_append_eq_append_drop, List.drop_eq_nil_of_le (by rw [h3]; omega), h3]
    norm_num
  have hnl : '\n' ∉ c5bad.take MAX_MSG_LEN := by
    rw [hM, htake]
    intro hmem
    rcases List.mem_append.mp hmem with h | h
    · revert h; decide
    · exact absurd (List.eq_of_mem_replicate h) (by decide)
  have hsp : ' ' ∉ c5bad.take MAX_MSG_LEN := by
    rw [hM, htake]
    intro hmem
    rcases List.mem_append.mp hmem with h | h
    · revert h; decide
    · exact absurd (List.eq_of_mem_replicate h) (by decide)
  have hcut : chooseCut c5bad = 2000 := (chooseCut_eq_max hnl hsp).trans hM
  have hfence : countFence ("```".data ++ List.replicate 1997 'a') = 1 := by
    have hrep : countFence (List.replicate 1997 'a') = 0 :=
      countFence_no_tick (by
        intro c hc
        rw [List.eq_of_mem_replicate hc]
        decide)
    rw [countFence_fence_append, hrep]
  have hne : c5bad ≠ [] := by
    intro hcon
    rw [hcon] at hlen
    simp at hlen
  have hbig : ¬ c5bad.length ≤ MAX_MSG_LEN := by
    rw [hlen, hM]
    omega
  have hstep := sendLong_step 1 c5bad hne hbig
  norm_num at hstep
  have hdw : (List.replicate 3 'a').dropWhile (· == '\n') = List.replicate 3 'a' := by decide
  rw [hstep, hcut, htake, hdrop, hdw, hfence]
  norm_num
  rw [sendLong_small 1 _ (by decide) (by decide)]

/-- Claim C5 (code bug): `send_long` emits a chunk longer than 2000
characters.  On `c5bad` the first chunk is the 2000-character hard cut plus
the four-character fence repair: 2004 characters, over the transport limit
`MAX_MSG_LEN`. -/
theorem c5_oversize_chunk :
    ∃ cs, sendLong 2 c5bad = some cs ∧ ∃ c ∈ cs, MAX_MSG_LEN < c.length := by
  refine ⟨_, sendLong_c5bad, ("```".data ++ List.replicate 1997 'a') ++ "\n```".data,
    List.mem_cons_self _ _, ?_⟩
  have h1 : (("```".data ++ List.replicate 1997 'a') ++ "\n```".data).length = 2004 := by
    simp only [List.length_append, List.length_replicate]
    decide
  rw [h1, MAX_MSG_LEN]
  omega

/-- Running `send_long` on `c6bad`: the hard cut takes the 2000 `a`s, the newline at
the cut is dropped by `lstrip`, and only `"b"` remains for the second chunk. -/
theorem sendLong_c6bad :
    sendLong 2 c6bad = some [List.replicate 2000 'a', ['b']] := by
  have hM : MAX_MSG_LEN = 2000 := rfl
  have h2 : ("\nb".data : List Char).length = 2 := by decide
  have hlen : c6bad.length = 2002 := by
    rw [c6bad, List.length_append, List.length_replicate, h2]
  have htake : c6bad.take 2000 = List.replicate 2000 'a' := by
    rw [c6bad, List.take_append_eq_append_take, List.length_replicate]
    norm_num
  have hdrop : c6bad.drop 2000 = "\nb".data := by
    rw [c6bad, List.drop_append_eq_append_drop, List.length_replicate]
    norm_num
  have hnl : '\n' ∉ c6bad.take MAX_MSG_LEN := by
    rw [hM, htake]
    intro hmem
    exact absurd (List.eq_of_mem_replicate hmem) (by decide)
  have hsp : ' ' ∉ c6bad.take MAX_MSG_LEN := by
    rw [hM, htake]
    intro hmem
    exact absurd (List.eq_of_mem_replicate hmem) (by decide)
  have hcut : chooseCut c6bad = 2000 := (chooseCut_eq_max hnl hsp).trans hM
  have hfence : countFence (List.replicate 2000 'a') = 0 :=
    countFence_no_tick (by
      intro c hc
      rw [List.eq_of_mem_replicate hc]
      decide)
  have hne : c6bad ≠ [] := by
    intro hcon
    rw [hcon] at hlen
    simp at hlen
  have hbig : ¬ c6bad.length ≤ MAX_MSG_LEN := by
    rw [hlen, hM]
    omega
  have hstep := sendLong_step 1 c6bad hne hbig
  norm_num at hstep
  have hdw : ("\nb".data : List Char).dropWhile (· == '\n') = ['b'] := by decide
  rw [hstep, hcut, htake, hdrop, hdw, hfence]
  norm_num
  rw [sendLong_small 1 _ (by decide) (by decide)]

/-- Counterexample to C6 as stated: on `c6bad` — a text containing no fence
characters at all, so no fence-repair markers are inserted and stripping
them is the identity — concatenating the emitted chunks does not reconstruct
the original text: the newline at the chunk boundary is lost. -/
theorem c6_counterexample :
    ∃ cs, sendLong 2 c6bad = some cs ∧
      (∀ ch ∈ cs, ∀ c ∈ ch, c ≠ tick) ∧ cs.flatten ≠ c6bad := by
  refine ⟨[List.replicate 2000 'a', ['b']], sendLong_c6bad, ?_, ?_⟩
  · intro ch hch c hc
    rcases List.mem_cons.mp hch with h | h
    · subst h
      rw [List.eq_of_mem_replicate hc]
      decide
    · rcases List.mem_singleton.mp h with rfl
      rcases List.mem_singleton.mp hc with rfl
      decide
  · intro hcon
    have hlen2 := congrArg List.length hcon
    have hlen : c6bad.length = 2002 := by
      rw [c6bad, List.length_append, List.length_replicate]
      decide
    rw [hlen, List.flatten_cons, List.flatten_cons, List.flatten_nil, List.append_nil,
      List.length_append, List.length_replicate] at hlen2
    simp at hlen2

/-- The head surviving `dropWhile` fails the predicate. -/
theorem head_dropWhile_false (p : Char → Bool) (l : List Char) {x : Char}
    (h : (l.dropWhile p).head? = some x) : p x = false := by
  have hh := List.head?_dropWhile_not p l
  rw [h] at hh
  exact hh

/-- Function `dropWhile` is the identity when the head already fails the predicate. -/
theorem dropWhile_eq_self_of_head (p : Char → Bool) (l : List Char)
    (h : ∀ a, l.head? = some a → p a = false) : l.dropWhile p = l := by
  cases l with
  | nil => rfl
  | cons a t =>
    rw [List.dropWhile_cons, h a rfl]
    simp

/-- Decomposition invariant of the `send_long` loop: the current text is an
inserted reopening marker (or nothing) followed by a residue `R` of the
original text, and each emitted chunk carries a slice of `R` plus inserted
marker material; the slices with their dropped newline runs re-inserted
concatenate back to `R`.  The residue after a marker never starts with a
newline, which pins the cut behaviour at the marker. -/
theorem sendLong_decompose (fuel : Nat) :
    ∀ (I R : List Char) (chunks : List (List Char)),
      (I = [] ∨ (I = "```\n".data ∧ ∀ a, R.head? = some a → a ≠ '\n')) →
      sendLong fuel (I ++ R) = some chunks →
      ∃ ps, List.Forall₂ chunkMatches chunks ps ∧ piecesText ps = R := by
  induction fuel with
  | zero =>
    intro I R chunks hinv hrun
    by_cases h0 : I ++ R = []
    · obtain ⟨hI, hR⟩ := List.append_eq_nil.mp h0
      subst hR
      rw [h0, sendLong_nil] at hrun
      simp only [Option.some.injEq] at hrun
      subst hrun
      exact ⟨[], List.Forall₂.nil, rfl⟩
    · by_cases hsm : (I ++ R).length ≤ MAX_MSG_LEN
      · rw [sendLong_small 0 _ h0 hsm] at hrun
        simp only [Option.some.injEq] at hrun
        subst hrun
        refine ⟨[(R, [])], List.Forall₂.cons ⟨⟨I, [], by simp, ?_, Or.inl rfl⟩, by simp⟩
          List.Forall₂.nil, by simp [piecesText]⟩
        rcases hinv with rfl | ⟨rfl, _⟩
        · exact ⟨"```\n".data, rfl⟩
        · exact ⟨[], rfl⟩
      · rw [sendLong_zero_big _ h0 hsm] at hrun
        cases hrun
  | succ f ih =>
    intro I R chunks hinv hrun
    by_cases h0 : I ++ R = []
    · obtain ⟨hI, hR⟩ := List.append_eq_nil.mp h0
      subst hR
      rw [h0, sendLong_nil] at hrun
      simp only [Option.some.injEq] at hrun
      subst hrun
      exact ⟨[], List.Forall₂.nil, rfl⟩
    · by_cases hsm : (I ++ R).length ≤ MAX_MSG_LEN
      · rw [sendLong_small (f + 1) _ h0 hsm] at hrun
        simp only [Option.some.injEq] at hrun
        subst hrun
        refine ⟨[(R, [])], List.Forall₂.cons ⟨⟨I, [], by simp, ?_, Or.inl rfl⟩, by simp⟩
          List.Forall₂.nil, by simp [piecesText]⟩
        rcases hinv with rfl | ⟨rfl, _⟩
        · exact ⟨"```\n".data, rfl⟩
        · exact ⟨[], rfl⟩
      · rw [sendLong_step f _ h0 hsm] at hrun
        rcases hinv with rfl | ⟨rfl, hR⟩
        · -- no pending marker: the cut carves the residue directly
          simp only [List.nil_append] at hrun
          by_cases hodd : countFence (R.take (chooseCut R)) % 2 = 1
          · rw [if_pos hodd, Option.map_eq_some'] at hrun
            obtain ⟨cs', hrec, hchunks⟩ := hrun
            subst hchunks
            obtain ⟨ps', hfa, htext⟩ := ih "```\n".data
              ((R.drop (chooseCut R)).dropWhile (· == '\n')) cs'
              (Or.inr ⟨rfl, fun a ha => by
                simpa using head_dropWhile_false (· == '\n') _ ha⟩) hrec
            refine ⟨(R.take (chooseCut R), (R.drop (chooseCut R)).takeWhile (· == '\n')) :: ps',
              List.Forall₂.cons ⟨⟨[], "\n```".data, by simp, ⟨"```\n".data, rfl⟩, Or.inr rfl⟩,
                fun c hc => by
                  have hc2 : c ∈ (R.drop (chooseCut R)).takeWhile (· == '\n') := hc
                  simpa using List.mem_takeWhile_imp hc2⟩ hfa, ?_⟩
            simp only [piecesText, List.map_cons, List.flatten_cons] at htext ⊢
            rw [htext, List.append_assoc, List.takeWhile_append_dropWhile,
              List.take_append_drop]
          · rw [if_neg hodd, Option.map_eq_some'] at hrun
            obtain ⟨cs', hrec, hchunks⟩ := hrun
            subst hchunks
            obtain ⟨ps', hfa, htext⟩ := ih []
              ((R.drop (chooseCut R)).dropWhile (· == '\n')) cs'
              (Or.inl rfl) (by rw [List.nil_append]; exact hrec)
            refine ⟨(R.take (chooseCut R), (R.drop (chooseCut R)).takeWhile (· == '\n')) :: ps',
              List.Forall₂.cons ⟨⟨[], [], by simp, ⟨"```\n".data, rfl⟩, Or.inl rfl⟩,
                fun c hc => by
                  have hc2 : c ∈ (R.drop (chooseCut R)).takeWhile (· == '\n') := hc
                  simpa using List.mem_takeWhile_imp hc2⟩ hfa, ?_⟩
            simp only [piecesText, List.map_cons, List.flatten_cons] at htext ⊢
            rw [htext, List.append_assoc, List.takeWhile_append_dropWhile,
              List.take_append_drop]
        · -- pending marker "```\n": the cut lands at 3 or beyond the marker
          have hlen4 : ("```\n".data : List Char).length = 4 := by decide
          have hget : (("```\n".data ++ R : List Char))[3]? = some '\n' := by
            rw [List.getElem?_append_left (by rw [hlen4]; omega)]
            decide
          have hge3 : 3 ≤ chooseCut ("```\n".data ++ R) :=
            chooseCut_ge_of_nl hget (by omega) (by decide)
          rcases Nat.lt_or_ge (chooseCut ("```\n".data ++ R)) 4 with h4 | h4
          · -- cut = 3: the chunk is the partial marker "```", nothing consumed
            have hc3 : chooseCut ("```\n".data ++ R) = 3 := by omega
            have htake3 : ("```\n".data ++ R).take 3 = "```".data := by
              rw [List.take_append_eq_append_take, hlen4,
                (by decide : ("```\n".data : List Char).take 3 = "```".data)]
              norm_num
            have hdrop3 : ("```\n".data ++ R).drop 3 = '\n' :: R := by
              rw [List.drop_append_eq_append_drop, hlen4,
                (by decide : ("```\n".data : List Char).drop 3 = ['\n'])]
              norm_num
            have hrest : (("```\n".data ++ R).drop 3).dropWhile (· == '\n') = R := by
              rw [hdrop3, List.dropWhile_cons, if_pos (by decide)]
              exact dropWhile_eq_self_of_head _ _
                (fun a ha => beq_eq_false_iff_ne.mpr (hR a ha))
            rw [hc3, htake3, hrest] at hrun
            by_cases hodd : countFence ("```".data) % 2 = 1
            · rw [if_pos hodd, Option.map_eq_some'] at hrun
              obtain ⟨cs', hrec, hchunks⟩ := hrun
              subst hchunks
              obtain ⟨ps', hfa, htext⟩ := ih "```\n".data R cs' (Or.inr ⟨rfl, hR⟩) hrec
              refine ⟨([], []) :: ps',
                List.Forall₂.cons ⟨⟨"```".data, "\n```".data, by simp, ⟨['\n'], rfl⟩,
                  Or.inr rfl⟩, by simp⟩ hfa, ?_⟩
              simp only [piecesText, List.map_cons, List.flatten_cons] at htext ⊢
              simpa using htext
            · rw [if_neg hodd, Option.map_eq_some'] at hrun
              obtain ⟨cs', hrec, hchunks⟩ := hrun
              subst hchunks
              obtain ⟨ps', hfa, htext⟩ := ih [] R cs' (Or.inl rfl)
                (by rw [List.nil_append]; exact hrec)
              refine ⟨([], []) :: ps',
                List.Forall₂.cons ⟨⟨"```".data, [], by simp, ⟨['\n'], rfl⟩,
                  Or.inl rfl⟩, by simp⟩ hfa, ?_⟩
              simp only [piecesText, List.map_cons, List.flatten_cons] at htext ⊢
              simpa using htext
          · -- cut ≥ 4: the chunk is the whole marker plus a slice of R
            have htakeC : ("```\n".data ++ R).take (chooseCut ("```\n".data ++ R)) =
                "```\n".data ++ R.take (chooseCut ("```\n".data ++ R) - 4) := by
              rw [List.take_append_eq_append_take,
                List.take_of_length_le (by rw [hlen4]; omega), hlen4]
            have hdropC : ("```\n".data ++ R).drop (chooseCut ("```\n".data ++ R)) =
                R.drop (chooseCut ("```\n".data ++ R) - 4) := by
              rw [List.drop_append_eq_append_drop,
                List.drop_eq_nil_of_le (by rw [hlen4]; omega), hlen4, List.nil_append]
            rw [htakeC, hdropC] at hrun
            by_cases hodd : countFence ("```\n".data ++
                R.take (chooseCut ("```\n".data ++ R) - 4)) % 2 = 1
            · rw [if_pos hodd, Option.map_eq_some'] at hrun
              obtain ⟨cs', hrec, hchunks⟩ := hrun
              subst hchunks
              obtain ⟨ps', hfa, htext⟩ := ih "```\n".data
                ((R.drop (chooseCut ("```\n".data ++ R) - 4)).dropWhile (· == '\n')) cs'
                (Or.inr ⟨rfl, fun a ha => by
                  simpa using head_dropWhile_false (· == '\n') _ ha⟩) hrec
              refine ⟨(R.take (chooseCut ("```\n".data ++ R) - 4),
                  (R.drop (chooseCut ("```\n".data ++ R) - 4)).takeWhile (· == '\n')) :: ps',
                List.Forall₂.cons ⟨⟨"```\n".data, "\n```".data, by simp, ⟨[], rfl⟩,
                  Or.inr rfl⟩, fun c hc => by
                    have hc2 : c ∈ (R.drop (chooseCut ("```\n".data ++ R) - 4)).takeWhile
                        (· == '\n') := hc
                    simpa using List.mem_takeWhile_imp hc2⟩ hfa, ?_⟩
              simp only [piecesText, List.map_cons, List.flatten_cons] at htext ⊢
              rw [htext, List.append_assoc, List.takeWhile_append_dropWhile,
                List.take_append_drop]
            · rw [if_neg hodd, Option.map_eq_some'] at hrun
              obtain ⟨cs', hrec, hchunks⟩ := hrun
              subst hchunks
              obtain ⟨ps', hfa, htext⟩ := ih []
                ((R.drop (chooseCut ("```\n".data ++ R) - 4)).dropWhile (· == '\n')) cs'
                (Or.inl rfl) (by rw [List.nil_append]; exact hrec)
              refine ⟨(R.take (chooseCut ("```\n".data ++ R) - 4),
                  (R.drop (chooseCut ("```\n".data ++ R) - 4)).takeWhile (· == '\n')) :: ps',
                List.Forall₂.cons ⟨⟨"```\n".data, [], by simp, ⟨[], rfl⟩,
                  Or.inl rfl⟩, fun c hc => by
                    have hc2 : c ∈ (R.drop (chooseCut ("```\n".data ++ R) - 4)).takeWhile
                        (· == '\n') := hc
                    simpa using List.mem_takeWhile_imp hc2⟩ hfa, ?_⟩
              simp only [piecesText, List.map_cons, List.flatten_cons] at htext ⊢
              rw [htext, List.append_assoc, List.takeWhile_append_dropWhile,
                List.take_append_drop]

/-- Claim C6 (amended): whenever `send_long` terminates on a text, each
emitted chunk splits as inserted-reopening-marker material, a slice of the
original text, and an optional inserted closing marker; stripping the
inserted markers and re-inserting the newline runs dropped at the chunk
boundaries reconstructs the original text exactly (the claim as stated
fails: the dropped boundary newlines are lost, see the counterexample). -/
theorem c6_chunks_reconstruct (fuel : Nat) (text : List Char)
    (chunks : List (List Char)) (h : sendLong fuel text = some chunks) :
    ∃ ps, List.Forall₂ chunkMatches chunks ps ∧ piecesText ps = text :=
  sendLong_decompose fuel [] text chunks (Or.inl rfl)
    (by rw [List.nil_append]; exact h)

/-- Witness for the amended C6 on a small concrete text. -/
theorem c6_amended_witness :
    ∃ ps, List.Forall₂ chunkMatches ["hi".data] ps ∧ piecesText ps = "hi".data :=
  c6_chunks_reconstruct 1 "hi".data ["hi".data]
    (sendLong_small 1 "hi".data (by decide) (by decide))

end ClaudeBridge
